import Mathlib

/-!
Verification of the storage-benchmark harness (`src/App.tsx` and its variant
`src/unnamed/part_000`).

Modelling conventions:
* Timestamps from `performance.now()` are modelled as an oracle `Nat → ℚ`
  indexed by a tick counter in the world state; each call to `now` reads the
  next oracle value.  Numeric values (milliseconds) are exact rationals.
* `AsyncStorage` and the `MMKV` instance are modelled as string-keyed stores
  `String → Option String` inside the world state.  Asynchronous operations
  are modelled by explicit state passing: the `await` chain of the source is
  the sequential composition of the state transformers.
* `JSON.stringify` / `JSON.parse` are modelled by an executable
  encoder/decoder pair covering exactly the grammar of values this program
  stores: arrays of `{"id": <nat>, "value": <string>}` objects, plus the
  `null` literal (which `JSON.parse` produces when its argument is the
  coercion of `null`).  A thrown `SyntaxError` is modelled as `none`.
-/

/-- A synthetic payload record, `{ id: i, value: "Data " + i }` in the source. -/
structure PayloadItem where
  id : Nat
  value : String
deriving DecidableEq, Repr

/-- Worker for `decimalChars`; the fuel argument strictly bounds `n` and
exists only to make the recursion structural. -/
def decimalCharsAux : Nat → Nat → List Char
  | 0, _ => []
  | fuel + 1, n =>
    if n < 10 then [Nat.digitChar n]
    else decimalCharsAux fuel (n / 10) ++ [Nat.digitChar (n % 10)]

/-- Decimal digit characters of a natural number, most significant digit
first; models the JavaScript number-to-string conversion performed by the
template literal in the source. -/
def decimalChars (n : Nat) : List Char := decimalCharsAux (n + 1) n

theorem decimalCharsAux_congr :
    ∀ (fuel fuel' n : Nat), n < fuel → n < fuel' →
      decimalCharsAux fuel n = decimalCharsAux fuel' n := by
  intro fuel
  induction fuel with
  | zero => intro fuel' n h _; omega
  | succ fuel ih =>
    intro fuel' n h h'
    cases fuel' with
    | zero => omega
    | succ fuel' =>
      simp only [decimalCharsAux]
      split
    
      · rfl
      · rename_i hn
        rw [ih fuel' (n / 10) (by omega) (by omega)]

/-- One-step unfolding of `decimalChars`. -/
theorem decimalChars_eq (n : Nat) :
    decimalChars n =
      if n < 10 then [Nat.digitChar n]
      else decimalChars (n / 10) ++ [Nat.digitChar (n % 10)] := by
  rw [decimalChars, decimalCharsAux]
  split
  · rfl
  · rename_i hn
    rw [decimalChars, decimalCharsAux_congr n (n / 10 + 1) (n / 10) (by omega) (by omega)]

/-- String form of a natural number, modelling the template literal. -/
def decimalStr (n : Nat) : String := ⟨decimalChars n⟩

/-- The payload generated at line 44 of `src/App.tsx`:
`Array.from(\x7b length: size \x7d, (_, i) => (\x7b id: i, value: `Data ${i}` \x7d))`. -/
def mkData (size : Nat) : List PayloadItem :=
  (List.range size).map fun i => { id := i, value := "Data " ++ decimalStr i }

/-- JSON string escaping of a single character (quote and backslash; the
characters appearing in this program's payloads need no other escapes). -/
def escChar (c : Char) : List Char :=
  if c = '"' then ['\\', '"'] else if c = '\\' then ['\\', '\\'] else [c]

/-- JSON string escaping of a character sequence. -/
def escChars (s : List Char) : List Char := (s.map escChar).flatten

/-- The serialized form of one payload item:
`\x7b"id":<id>,"value":"<value>"\x7d`, with keys in insertion order as
`JSON.stringify` emits them. -/
def itemChars (x : PayloadItem) : List Char :=
  "\x7b\"id\":".data ++ decimalChars x.id ++ ",\"value\":\"".data
    ++ escChars x.value.data ++ "\"\x7d".data

/-- Comma-separated concatenation, as `JSON.stringify` joins array elements. -/
def joinComma : List (List Char) → List Char
  | [] => []
  | [x] => x
  | x :: y :: ys => x ++ ',' :: joinComma (y :: ys)

/-- Character sequence of the serialized payload array. -/
def stringifyChars (l : List PayloadItem) : List Char :=
  '[' :: joinComma (l.map itemChars) ++ [']']

/-- Models `JSON.stringify(data)` for the payload arrays this program writes. -/
def stringifyPayload (l : List PayloadItem) : String := ⟨stringifyChars l⟩

/-- The JSON values relevant to this program: `null`, and arrays of payload
items.  Any other stored text fails to decode. -/
inductive JValue where
  | null : JValue
  | arr : List PayloadItem → JValue
deriving DecidableEq, Repr

/-- Consume an expected literal character sequence from the input. -/
def expectChars : List Char → List Char → Option (List Char)
  | [], input => some input
  | _ :: _, [] => none
  | c :: cs, d :: input => if c = d then expectChars cs input else none

/-- Parse a JSON string body (after the opening quote) up to and including
the closing quote, undoing the escapes of `escChar`. -/
def parseStrChars : List Char → Option (List Char × List Char)
  | [] => none
  | c :: rest =>
    if c = '"' then some ([], rest)
    else if c = '\\' then
      match rest with
      | [] => none
      | d :: rest' =>
        if d = '"' ∨ d = '\\' then (parseStrChars rest').map fun p => (d :: p.1, p.2)
        else none
    else (parseStrChars rest).map fun p => (c :: p.1, p.2)

/-- Value of a decimal digit sequence, most significant digit first. -/
def digitsToNat (ds : List Char) : Nat :=
  ds.foldl (fun acc c => acc * 10 + (c.toNat - 48)) 0

/-- Parse a decimal natural number from the front of the input. -/
def parseNatChars (input : List Char) : Option (Nat × List Char) :=
  let ds := input.takeWhile fun c => c.isDigit
  if ds = [] then none
  else some (digitsToNat ds, input.dropWhile fun c => c.isDigit)

/-- Parse one serialized payload item `\x7b"id":<nat>,"value":"<string>"\x7d`. -/
def parseItem (input : List Char) : Option (PayloadItem × List Char) :=
  (expectChars "\x7b\"id\":".data input).bind fun r1 =>
  (parseNatChars r1).bind fun p1 =>
  (expectChars ",\"value\":\"".data p1.2).bind fun r2 =>
  (parseStrChars r2).bind fun p2 =>
  (expectChars "\x7d".data p2.2).map fun r3 =>
  ({ id := p1.1, value := ⟨p2.1⟩ }, r3)

/-- Parse a non-empty comma-separated item list terminated by `]`.  The fuel
argument bounds the number of items and only needs to exceed it. -/
def parseItems : Nat → List Char → Option (List PayloadItem × List Char)
  | 0, _ => none
  | fuel + 1, input =>
    (parseItem input).bind fun p =>
      match p.2 with
      | [] => none
      | c :: rest =>
        if c = ',' then (parseItems fuel rest).map fun q => (p.1 :: q.1, q.2)
        else if c = ']' then some ([p.1], rest)
        else none

/-- Parse the inside of an array (after the opening bracket). -/
def parseArrayItems (fuel : Nat) : List Char → Option (List PayloadItem × List Char)
  | [] => none
  | c :: rest =>
    if c = ']' then some ([], rest)
    else parseItems fuel (c :: rest)

/-- Models `JSON.parse` on the value grammar of this program: the `null`
literal, and arrays of payload items.  Returns `none` where `JSON.parse`
throws a `SyntaxError` (for example on the text `undefined`). -/
def parseJsonChars (input : List Char) : Option JValue :=
  if input = "null".data then some JValue.null
  else
    match input with
    | [] => none
    | c :: rest =>
      if c = '[' then
        (parseArrayItems (rest.length + 1) rest).bind fun p =>
          if p.2 = [] then some (JValue.arr p.1) else none
      else none

/-- Models `JSON.parse` applied to a string. -/
def parseJson (s : String) : Option JValue := parseJsonChars s.data

/-- The mutable state visible to the benchmark: the `performance.now()`
timestamp oracle with its tick counter, the `AsyncStorage` key-value store,
and the module-global `MMKV` instance (`storage` at line 10 of the source). -/
structure World where
  oracle : Nat → ℚ
  tick : Nat
  asyncStore : String → Option String
  mmkvStore : String → Option String

/-- One call to `performance.now()`: read the next oracle value. -/
def now (w : World) : ℚ × World :=
  (w.oracle w.tick, { w with tick := w.tick + 1 })

/-- Lines 13-18 of `src/App.tsx`: time `AsyncStorage.setItem(key,
JSON.stringify(value))` and return the elapsed milliseconds. -/
def asyncStorageWrite (key : String) (value : List PayloadItem) (w : World) : ℚ × World :=
  let p1 := now w
  let w2 : World :=
    { p1.2 with
      asyncStore := fun k => if k = key then some (stringifyPayload value) else p1.2.asyncStore k }
  let p2 := now w2
  (p2.1 - p1.1, p2.2)

/-- Lines 20-25 of `src/App.tsx`: time `AsyncStorage.getItem(key)` and return
the elapsed time together with `JSON.parse(value)`.  A missing key yields
`null`, which `JSON.parse` coerces to the text `null`; a parse failure throws,
modelled as `none`. -/
def asyncStorageRead (key : String) (w : World) : Option ((ℚ × JValue) × World) :=
  let p1 := now w
  let stored := p1.2.asyncStore key
  let p2 := now p1.2
  (parseJson (match stored with | some s => s | none => "null")).map fun v =>
    ((p2.1 - p1.1, v), p2.2)

/-- Lines 28-33 of `src/App.tsx`: time `storage.set(key,
JSON.stringify(value))` on the MMKV instance. -/
def mmkvWrite (key : String) (value : List PayloadItem) (w : World) : ℚ × World :=
  let p1 := now w
  let w2 : World :=
    { p1.2 with
      mmkvStore := fun k => if k = key then some (stringifyPayload value) else p1.2.mmkvStore k }
  let p2 := now w2
  (p2.1 - p1.1, p2.2)

/-- Lines 35-40 of `src/App.tsx`: time `storage.getString(key)` and return the
elapsed time together with `JSON.parse(value)`.  A missing key yields
`undefined`, which `JSON.parse` coerces to the text `undefined` and then
rejects; the thrown `SyntaxError` is modelled as `none`. -/
def mmkvRead (key : String) (w : World) : Option ((ℚ × JValue) × World) :=
  let p1 := now w
  let stored := p1.2.mmkvStore key
  let p2 := now p1.2
  (parseJson (match stored with | some s => s | none => "undefined")).map fun v =>
    ((p2.1 - p1.1, v), p2.2)

/-- The result record returned by `runBenchmark` in `src/App.tsx`
(lines 61-71). -/
structure BenchmarkResult where
  size : Nat
  asyncWriteTime : ℚ
  asyncReadTime : ℚ
  asyncAvg : ℚ
  mmkvWriteTime : ℚ
  mmkvReadTime : ℚ
  mmkvAvg : ℚ
  writeDifference : ℚ
  readDifference : ℚ

/-- Lines 43-72 of `src/App.tsx`: generate the payload, time the four storage
operations in order (write-A, read-A, write-B, read-B, each awaited before the
next starts), and build the result record.  A decode failure in either read
propagates as `none`.  The `console.log` calls are pure output and not
modelled. -/
def runBenchmark (size : Nat) (w : World) : Option (BenchmarkResult × World) :=
  let data := mkData size
  let aw := asyncStorageWrite "asyncKey" data w
  match asyncStorageRead "asyncKey" aw.2 with
  | none => none
  | some ar =>
    let mw := mmkvWrite "mmkvKey" data ar.2
    match mmkvRead "mmkvKey" mw.2 with
    | none => none
    | some mr =>
      some ({ size := size
              asyncWriteTime := aw.1
              asyncReadTime := ar.1.1
              asyncAvg := (aw.1 + ar.1.1) / 2
              mmkvWriteTime := mw.1
              mmkvReadTime := mr.1.1
              mmkvAvg := (mw.1 + mr.1.1) / 2
              writeDifference := |aw.1 - mw.1|
              readDifference := |ar.1.1 - mr.1.1| }, mr.2)

/-- Lines 77-80 of `src/App.tsx`: run the benchmark and append the result to
the caller-owned result history (`setResults(prev => [...prev, result])`). -/
def handleRunTests (size : Nat) (results : List BenchmarkResult) (w : World) :
    Option (List BenchmarkResult × World) :=
  (runBenchmark size w).map fun p => (results ++ [p.1], p.2)

namespace Variant

/-- The result record returned by `runBenchmark` in `src/unnamed/part_000`
(lines 62-72), which reports percentage differences instead of averages. -/
structure BenchmarkResult where
  size : Nat
  asyncWriteTime : ℚ
  asyncReadTime : ℚ
  mmkvWriteTime : ℚ
  mmkvReadTime : ℚ
  writeDifference : ℚ
  readDifference : ℚ
  writePercentageDifference : ℚ
  readPercentageDifference : ℚ

/-- Lines 41-73 of `src/unnamed/part_000`: as `runBenchmark` in `App.tsx`, but
the result additionally carries percentage differences computed by dividing
the absolute difference by whichever timing is smaller (lines 54-60). -/
def runBenchmark (size : Nat) (w : World) : Option (BenchmarkResult × World) :=
  let data := mkData size
  let aw := asyncStorageWrite "asyncKey" data w
  match asyncStorageRead "asyncKey" aw.2 with
  | none => none
  | some ar =>
    let mw := mmkvWrite "mmkvKey" data ar.2
    match mmkvRead "mmkvKey" mw.2 with
    | none => none
    | some mr =>
      let writeDifference := |aw.1 - mw.1|
      let readDifference := |ar.1.1 - mr.1.1|
      some ({ size := size
              asyncWriteTime := aw.1
              asyncReadTime := ar.1.1
              mmkvWriteTime := mw.1
              mmkvReadTime := mr.1.1
              writeDifference := writeDifference
              readDifference := readDifference
              writePercentageDifference :=
                if aw.1 < mw.1 then writeDifference / aw.1 * 100
                else writeDifference / mw.1 * 100
              readPercentageDifference :=
                if ar.1.1 < mr.1.1 then readDifference / ar.1.1 * 100
                else readDifference / mr.1.1 * 100 }, mr.2)

end Variant

/-- A concrete world for instantiations: the clock reads its own index and
both stores are empty. -/
def sampleWorld : World :=
  { oracle := fun i => (i : ℚ)
    tick := 0
    asyncStore := fun _ => none
    mmkvStore := fun _ => none }

theorem expectChars_append (lit rest : List Char) :
    expectChars lit (lit ++ rest) = some rest := by
  induction lit with
  | nil => rfl
  | cons c cs ih => simp [expectChars, ih]

theorem parseStrChars_cons (c : Char) (rest : List Char) :
    parseStrChars (c :: rest) =
      if c = '"' then some ([], rest)
      else if c = '\\' then
        (match rest with
         | [] => none
         | d :: rest' =>
           if d = '"' ∨ d = '\\' then (parseStrChars rest').map fun p => (d :: p.1, p.2)
           else none)
      else (parseStrChars rest).map fun p => (c :: p.1, p.2) := by
  cases rest <;> rfl

theorem parseStrChars_escChars (s rest : List Char) :
    parseStrChars (escChars s ++ '"' :: rest) = some (s, rest) := by
  induction s with
  | nil =>
    rw [show escChars [] = [] from rfl, List.nil_append, parseStrChars_cons]
    simp
  | cons c cs ih =>
    by_cases hq : c = '"'
    · subst hq
      rw [show escChars ('"' :: cs) = '\\' :: '"' :: escChars cs from by
        simp [escChars, escChar]]
      rw [List.cons_append, List.cons_append, parseStrChars_cons]
      simp [ih]
    · by_cases hb : c = '\\'
      · subst hb
        rw [show escChars ('\\' :: cs) = '\\' :: '\\' :: escChars cs from by
          simp [escChars, escChar]]
        rw [List.cons_append, List.cons_append, parseStrChars_cons]
        simp [ih]
      · rw [show escChars (c :: cs) = c :: escChars cs from by
          simp [escChars, escChar, hq, hb]]
        rw [List.cons_append, parseStrChars_cons]
        simp [hq, hb, ih]

theorem digitChar_isDigit (d : Nat) (h : d < 10) :
    (Nat.digitChar d).isDigit = true := by
  interval_cases d <;> decide

theorem digitChar_toNat (d : Nat) (h : d < 10) :
    (Nat.digitChar d).toNat = 48 + d := by
  interval_cases d <;> decide

theorem decimalChars_ne_nil (n : Nat) : decimalChars n ≠ [] := by
  rw [decimalChars_eq]
  split <;> simp

theorem decimalChars_isDigit (n : Nat) : ∀ c ∈ decimalChars n, c.isDigit = true := by
  induction n using Nat.strong_induction_on with
  | _ n ih =>
    rw [decimalChars_eq]
    split
    · intro c hc
      rw [List.mem_singleton] at hc
      subst hc
      exact digitChar_isDigit n (by omega)
    · intro c hc
      rw [List.mem_append] at hc
      rcases hc with hc | hc
      · exact ih (n / 10) (Nat.div_lt_self (by omega) (by omega)) c hc
      · rw [List.mem_singleton] at hc
        subst hc
        exact digitChar_isDigit _ (Nat.mod_lt _ (by omega))

theorem digitsToNat_append (ds : List Char) (c : Char) :
    digitsToNat (ds ++ [c]) = digitsToNat ds * 10 + (c.toNat - 48) := by
  simp [digitsToNat, List.foldl_append]

theorem digitsToNat_decimalChars (n : Nat) : digitsToNat (decimalChars n) = n := by
  induction n using Nat.strong_induction_on with
  | _ n ih =>
    rw [decimalChars_eq]
    split
    · rename_i h
      simp [digitsToNat, digitChar_toNat n h]
    · rename_i h
      rw [digitsToNat_append, ih (n / 10) (Nat.div_lt_self (by omega) (by omega)),
        digitChar_toNat _ (Nat.mod_lt _ (by omega))]
      omega

theorem takeWhile_append_neg (p : Char → Bool) (l : List Char) (c : Char)
    (rest : List Char) (hl : ∀ x ∈ l, p x = true) (hc : p c = false) :
    (l ++ c :: rest).takeWhile p = l ∧ (l ++ c :: rest).dropWhile p = c :: rest := by
  induction l with
  | nil => simp [List.takeWhile, List.dropWhile, hc]
  | cons a l ih =>
    have ha : p a = true := hl a (List.mem_cons_self a l)
    have := ih fun x hx => hl x (List.mem_cons_of_mem a hx)
    simp [List.takeWhile, List.dropWhile, ha, this.1, this.2]

theorem parseNatChars_decimal (n : Nat) (c : Char) (rest : List Char)
    (hc : c.isDigit = false) :
    parseNatChars (decimalChars n ++ c :: rest) = some (n, c :: rest) := by
  have h := takeWhile_append_neg (fun c => c.isDigit) (decimalChars n) c rest
    (decimalChars_isDigit n) hc
  rw [parseNatChars]
  simp only [h.1, h.2]
  rw [if_neg (decimalChars_ne_nil n), digitsToNat_decimalChars]

theorem parseItem_roundtrip (x : PayloadItem) (rest : List Char) :
    parseItem (itemChars x ++ rest) = some (x, rest) := by
  obtain ⟨i, v⟩ := x
  obtain ⟨vd⟩ := v
  have hcomma : (',' : Char).isDigit = false := by decide
  rw [parseItem, itemChars]
  simp only [List.append_assoc, List.cons_append, List.nil_append]
  simp [expectChars]
  rw [parseNatChars_decimal i ',' _ hcomma]
  simp [expectChars]
  rw [parseStrChars_escChars]
  simp [expectChars]

theorem itemChars_length_pos (x : PayloadItem) : 1 ≤ (itemChars x).length := by
  simp [itemChars]

theorem joinComma_length (l : List PayloadItem) :
    l.length ≤ (joinComma (l.map itemChars)).length := by
  induction l with
  | nil => simp [joinComma]
  | cons x xs ih =>
    cases xs with
    | nil => simpa [joinComma] using itemChars_length_pos x
    | cons y ys =>
      have hx := itemChars_length_pos x
      simp only [List.map_cons, joinComma, List.length_append, List.length_cons] at *
      omega

theorem parseItems_roundtrip (l : List PayloadItem) :
    ∀ (fuel : Nat) (rest : List Char), l ≠ [] → l.length ≤ fuel →
      parseItems fuel (joinComma (l.map itemChars) ++ ']' :: rest) = some (l, rest) := by
  induction l with
  | nil => intro fuel rest hne; exact absurd rfl hne
  | cons x xs ih =>
    intro fuel rest _ hfuel
    cases fuel with
    | zero => simp at hfuel
    | succ fuel =>
      cases xs with
      | nil =>
        simp only [List.map_cons, List.map_nil, joinComma]
        simp [parseItems, parseItem_roundtrip]
      | cons y ys =>
        simp only [List.map_cons, joinComma]
        rw [show (itemChars x ++ ',' :: joinComma (itemChars y :: List.map itemChars ys))
              ++ ']' :: rest
            = itemChars x ++ ',' :: (joinComma (itemChars y :: List.map itemChars ys)
              ++ ']' :: rest) from by simp]
        have hih := ih fuel rest (by simp) (by simpa using Nat.le_of_succ_le_succ hfuel)
        simp only [List.map_cons] at hih
        simp [parseItems, parseItem_roundtrip, hih]

theorem parseJson_stringify (l : List PayloadItem) :
    parseJson (stringifyPayload l) = some (JValue.arr l) := by
  cases l with
  | nil => decide
  | cons x xs =>
    rw [parseJson, stringifyPayload,
      show (String.mk (stringifyChars (x :: xs))).data = stringifyChars (x :: xs) from rfl,
      stringifyChars, parseJsonChars.eq_def]
    rw [if_neg (by simp)]
    show (if ('[' : Char) = '[' then
        (parseArrayItems ((joinComma (List.map itemChars (x :: xs)) ++ [']']).length + 1)
          (joinComma (List.map itemChars (x :: xs)) ++ [']'])).bind
          fun p => if p.2 = [] then some (JValue.arr p.1) else none
      else none) = some (JValue.arr (x :: xs))
    rw [if_pos rfl]
    obtain ⟨tx, htx⟩ : ∃ t, itemChars x = '\x7b' :: t := ⟨_, rfl⟩
    obtain ⟨t, ht⟩ : ∃ t, joinComma ((x :: xs).map itemChars) = '\x7b' :: t := by
      cases xs with
      | nil => exact ⟨tx, by simp [joinComma, htx]⟩
      | cons y ys =>
        exact ⟨tx ++ ',' :: joinComma (itemChars y :: List.map itemChars ys), by
          simp [joinComma, htx]⟩
    have h2 : joinComma ((x :: xs).map itemChars) ++ [']'] = '\x7b' :: (t ++ [']']) := by
      rw [ht]; rfl
    have h3 : parseArrayItems ((joinComma ((x :: xs).map itemChars) ++ [']']).length + 1)
        (joinComma ((x :: xs).map itemChars) ++ [']'])
        = parseItems ((joinComma ((x :: xs).map itemChars) ++ [']']).length + 1)
          (joinComma ((x :: xs).map itemChars) ++ [']']) := by
      rw [h2]
      simp [parseArrayItems]
    rw [h3, parseItems_roundtrip (x :: xs) _ [] (by simp)
      (by have := joinComma_length (x :: xs); simp only [List.length_append]; omega)]
    simp

/-- Full evaluation of one `runBenchmark` call (`src/App.tsx`): it always
succeeds; the four timings are the differences of consecutive oracle samples
taken in the order write-A, read-A, write-B, read-B; the derived fields are
computed from them; and the final world has advanced the clock by eight
samples and stored the serialized payload under the two fixed keys. -/
theorem runBenchmark_eq (size : Nat) (w : World) :
    runBenchmark size w = some
      ({ size := size
         asyncWriteTime := w.oracle (w.tick + 1) - w.oracle w.tick
         asyncReadTime := w.oracle (w.tick + 3) - w.oracle (w.tick + 2)
         asyncAvg := ((w.oracle (w.tick + 1) - w.oracle w.tick)
           + (w.oracle (w.tick + 3) - w.oracle (w.tick + 2))) / 2
         mmkvWriteTime := w.oracle (w.tick + 5) - w.oracle (w.tick + 4)
         mmkvReadTime := w.oracle (w.tick + 7) - w.oracle (w.tick + 6)
         mmkvAvg := ((w.oracle (w.tick + 5) - w.oracle (w.tick + 4))
           + (w.oracle (w.tick + 7) - w.oracle (w.tick + 6))) / 2
         writeDifference := |(w.oracle (w.tick + 1) - w.oracle w.tick)
           - (w.oracle (w.tick + 5) - w.oracle (w.tick + 4))|
         readDifference := |(w.oracle (w.tick + 3) - w.oracle (w.tick + 2))
           - (w.oracle (w.tick + 7) - w.oracle (w.tick + 6))| },
       { oracle := w.oracle
         tick := w.tick + 8
         asyncStore := fun k =>
           if k = "asyncKey" then some (stringifyPayload (mkData size)) else w.asyncStore k
         mmkvStore := fun k =>
           if k = "mmkvKey" then some (stringifyPayload (mkData size)) else w.mmkvStore k }) := by
  simp only [runBenchmark, asyncStorageWrite, asyncStorageRead, mmkvWrite, mmkvRead, now]
  simp [parseJson_stringify]

/-- Full evaluation of one `runBenchmark` call of `src/unnamed/part_000`,
analogous to `runBenchmark_eq`. -/
theorem variantRunBenchmark_eq (size : Nat) (w : World) :
    Variant.runBenchmark size w = some
      ({ size := size
         asyncWriteTime := w.oracle (w.tick + 1) - w.oracle w.tick
         asyncReadTime := w.oracle (w.tick + 3) - w.oracle (w.tick + 2)
         mmkvWriteTime := w.oracle (w.tick + 5) - w.oracle (w.tick + 4)
         mmkvReadTime := w.oracle (w.tick + 7) - w.oracle (w.tick + 6)
         writeDifference := |(w.oracle (w.tick + 1) - w.oracle w.tick)
           - (w.oracle (w.tick + 5) - w.oracle (w.tick + 4))|
         readDifference := |(w.oracle (w.tick + 3) - w.oracle (w.tick + 2))
           - (w.oracle (w.tick + 7) - w.oracle (w.tick + 6))|
         writePercentageDifference :=
           if w.oracle (w.tick + 1) - w.oracle w.tick
               < w.oracle (w.tick + 5) - w.oracle (w.tick + 4) then
             |(w.oracle (w.tick + 1) - w.oracle w.tick)
               - (w.oracle (w.tick + 5) - w.oracle (w.tick + 4))|
               / (w.oracle (w.tick + 1) - w.oracle w.tick) * 100
           else
             |(w.oracle (w.tick + 1) - w.oracle w.tick)
               - (w.oracle (w.tick + 5) - w.oracle (w.tick + 4))|
               / (w.oracle (w.tick + 5) - w.oracle (w.tick + 4)) * 100
         readPercentageDifference :=
           if w.oracle (w.tick + 3) - w.oracle (w.tick + 2)
               < w.oracle (w.tick + 7) - w.oracle (w.tick + 6) then
             |(w.oracle (w.tick + 3) - w.oracle (w.tick + 2))
               - (w.oracle (w.tick + 7) - w.oracle (w.tick + 6))|
               / (w.oracle (w.tick + 3) - w.oracle (w.tick + 2)) * 100
           else
             |(w.oracle (w.tick + 3) - w.oracle (w.tick + 2))
               - (w.oracle (w.tick + 7) - w.oracle (w.tick + 6))|
               / (w.oracle (w.tick + 7) - w.oracle (w.tick + 6)) * 100 },
       { oracle := w.oracle
         tick := w.tick + 8
         asyncStore := fun k =>
           if k = "asyncKey" then some (stringifyPayload (mkData size)) else w.asyncStore k
         mmkvStore := fun k =>
           if k = "mmkvKey" then some (stringifyPayload (mkData size)) else w.mmkvStore k }) := by
  simp only [Variant.runBenchmark, asyncStorageWrite, asyncStorageRead, mmkvWrite, mmkvRead, now]
  simp [parseJson_stringify]

theorem mkData_length (n : Nat) : (mkData n).length = n := by
  simp [mkData]

theorem mkData_getElem (n i : Nat) (h : i < n) :
    (mkData n)[i]? = some { id := i, value := "Data " ++ decimalStr i } := by
  simp [mkData, h]

/-- Reading a key that holds a serialized payload decodes that payload. -/
theorem asyncStorageRead_stored (key : String) (w : World) (l : List PayloadItem)
    (h : w.asyncStore key = some (stringifyPayload l)) :
    asyncStorageRead key w
      = some ((w.oracle (w.tick + 1) - w.oracle w.tick, JValue.arr l),
        { w with tick := w.tick + 2 }) := by
  simp only [asyncStorageRead, now]
  simp [h, parseJson_stringify]

/-- Reading a key that holds a serialized payload decodes that payload. -/
theorem mmkvRead_stored (key : String) (w : World) (l : List PayloadItem)
    (h : w.mmkvStore key = some (stringifyPayload l)) :
    mmkvRead key w
      = some ((w.oracle (w.tick + 1) - w.oracle w.tick, JValue.arr l),
        { w with tick := w.tick + 2 }) := by
  simp only [mmkvRead, now]
  simp [h, parseJson_stringify]

/-- In the variant's percentage formula, the branch on which timing is
smaller makes the divisor the minimum of the two timings. -/
theorem percentage_min (a m d : ℚ) :
    (if a < m then d / a * 100 else d / m * 100) = d / min a m * 100 := by
  split
  · rw [min_eq_left (le_of_lt (by assumption))]
  · rw [min_eq_right (le_of_not_lt (by assumption))]

/-- C1: for every benchmark run, the returned result's `writeDifference`
(the spec's `writeDiffMs`) equals the exact absolute difference of the two
backends' write times, and `readDifference` (`readDiffMs`) equals the exact
absolute difference of the two read times. -/
theorem claim_C1 (size : Nat) (w : World) (r : BenchmarkResult) (w' : World)
    (h : runBenchmark size w = some (r, w')) :
    r.writeDifference = |r.asyncWriteTime - r.mmkvWriteTime| ∧
    r.readDifference = |r.asyncReadTime - r.mmkvReadTime| := by
  rw [runBenchmark_eq] at h
  simp only [Option.some.injEq, Prod.mk.injEq] at h
  obtain ⟨hr, -⟩ := h
  subst hr
  exact ⟨rfl, rfl⟩

theorem claim_C1_witness :
    ∃ r w', runBenchmark 0 sampleWorld = some (r, w') ∧
      r.writeDifference = |r.asyncWriteTime - r.mmkvWriteTime| ∧
      r.readDifference = |r.asyncReadTime - r.mmkvReadTime| :=
  ⟨_, _, runBenchmark_eq 0 sampleWorld,
    claim_C1 0 sampleWorld _ _ (runBenchmark_eq 0 sampleWorld)⟩

/-- C2: the payload generated for a run of size `n` is deterministic: it has
exactly `n` items, and the item at index `i` is `id = i`,
`value = "Data " + i`. -/
theorem claim_C2 (n : Nat) :
    (mkData n).length = n ∧
    ∀ i, i < n → (mkData n)[i]? = some { id := i, value := "Data " ++ decimalStr i } :=
  ⟨mkData_length n, fun i hi => mkData_getElem n i hi⟩

theorem claim_C2_witness :
    (mkData 3).length = 3 ∧ (mkData 3)[1]? = some { id := 1, value := "Data 1" } :=
  ⟨(claim_C2 3).1, ((claim_C2 3).2 1 (by decide)).trans (by decide)⟩

/-- C3: round-trip law: after writing the generated payload of size `n` to a
backend and reading it back, decoding yields a sequence of length `n` whose
item at every index `i` has `id = i` and `value = "Data " + i`, for both
backends. -/
theorem claim_C3 (n : Nat) (key : String) (w : World) :
    (∃ t w1, asyncStorageRead key (asyncStorageWrite key (mkData n) w).2
        = some ((t, JValue.arr (mkData n)), w1)) ∧
    (∃ t w2, mmkvRead key (mmkvWrite key (mkData n) w).2
        = some ((t, JValue.arr (mkData n)), w2)) ∧
    (mkData n).length = n ∧
    ∀ i, i < n → (mkData n)[i]? = some { id := i, value := "Data " ++ decimalStr i } := by
  exact ⟨⟨_, _, asyncStorageRead_stored key _ (mkData n) (by simp [asyncStorageWrite, now])⟩,
    ⟨_, _, mmkvRead_stored key _ (mkData n) (by simp [mmkvWrite, now])⟩,
    mkData_length n, fun i hi => mkData_getElem n i hi⟩

theorem claim_C3_witness :
    (∃ t w1, asyncStorageRead "k" (asyncStorageWrite "k" (mkData 1) sampleWorld).2
        = some ((t, JValue.arr (mkData 1)), w1)) ∧
    (mkData 1)[0]? = some { id := 0, value := "Data 0" } :=
  ⟨(claim_C3 1 "k" sampleWorld).1,
    ((claim_C3 1 "k" sampleWorld).2.2.2 0 (by decide)).trans (by decide)⟩

/-- C4 counterexample: on the AsyncStorage backend, reading a key that was
never written does not fail; it succeeds and returns a `null` payload,
because `JSON.parse` coerces the `null` returned by `getItem` to the text
`null`. -/
theorem claim_C4_counterexample :
    ((asyncStorageRead "missing" sampleWorld).map fun p => p.1.2)
      = some JValue.null := by
  decide

/-- C4 (amended): reading a never-written key fails with a decode error on
the MMKV backend only; on the AsyncStorage backend the read succeeds and
returns a `null` payload rather than failing. -/
theorem claim_C4_amended (key : String) (w : World)
    (ha : w.asyncStore key = none) (hm : w.mmkvStore key = none) :
    mmkvRead key w = none ∧
    ((asyncStorageRead key w).map fun p => p.1.2) = some JValue.null := by
  constructor
  · simp only [mmkvRead, now]
    simp [hm, show parseJson "undefined" = none from by decide]
  · simp only [asyncStorageRead, now]
    simp [ha, show parseJson "null" = some JValue.null from by decide]

theorem claim_C4_witness :
    mmkvRead "missing" sampleWorld = none ∧
    ((asyncStorageRead "missing" sampleWorld).map fun p => p.1.2)
      = some JValue.null :=
  claim_C4_amended "missing" sampleWorld rfl rfl

/-- C5: `run(0, A, B)` succeeds with an empty generated payload: the decoded
payload read back from each backend afterwards is the empty sequence, and the
diff fields equal the absolute differences of the corresponding timings. -/
theorem claim_C5 (w : World) :
    ∃ r w', runBenchmark 0 w = some (r, w') ∧
      (∃ t wa, asyncStorageRead "asyncKey" w' = some ((t, JValue.arr []), wa)) ∧
      (∃ t wm, mmkvRead "mmkvKey" w' = some ((t, JValue.arr []), wm)) ∧
      r.writeDifference = |r.asyncWriteTime - r.mmkvWriteTime| ∧
      r.readDifference = |r.asyncReadTime - r.mmkvReadTime| := by
  exact ⟨_, _, runBenchmark_eq 0 w,
    ⟨_, _, asyncStorageRead_stored "asyncKey" _ [] rfl⟩,
    ⟨_, _, mmkvRead_stored "mmkvKey" _ [] rfl⟩,
    rfl, rfl⟩

/-- C6: within every run the four timed operations execute strictly
sequentially in the order write-A, read-A, write-B, read-B: each measured
interval is a pair of consecutive samples of the single clock, the four
sample pairs are disjoint and ordered, and the run consumes exactly eight
clock samples, so each operation completes before the next one's timer
starts. -/
theorem claim_C6 (size : Nat) (w : World) (r : BenchmarkResult) (w' : World)
    (h : runBenchmark size w = some (r, w')) :
    r.asyncWriteTime = w.oracle (w.tick + 1) - w.oracle w.tick ∧
    r.asyncReadTime = w.oracle (w.tick + 3) - w.oracle (w.tick + 2) ∧
    r.mmkvWriteTime = w.oracle (w.tick + 5) - w.oracle (w.tick + 4) ∧
    r.mmkvReadTime = w.oracle (w.tick + 7) - w.oracle (w.tick + 6) ∧
    w'.tick = w.tick + 8 := by
  rw [runBenchmark_eq] at h
  simp only [Option.some.injEq, Prod.mk.injEq] at h
  obtain ⟨hr, hw⟩ := h
  subst hr
  subst hw
  exact ⟨rfl, rfl, rfl, rfl, rfl⟩

theorem claim_C6_witness :
    ∃ r w', runBenchmark 0 sampleWorld = some (r, w') ∧
      r.asyncWriteTime = sampleWorld.oracle (sampleWorld.tick + 1)
        - sampleWorld.oracle sampleWorld.tick ∧
      r.asyncReadTime = sampleWorld.oracle (sampleWorld.tick + 3)
        - sampleWorld.oracle (sampleWorld.tick + 2) ∧
      r.mmkvWriteTime = sampleWorld.oracle (sampleWorld.tick + 5)
        - sampleWorld.oracle (sampleWorld.tick + 4) ∧
      r.mmkvReadTime = sampleWorld.oracle (sampleWorld.tick + 7)
        - sampleWorld.oracle (sampleWorld.tick + 6) ∧
      w'.tick = sampleWorld.tick + 8 :=
  ⟨_, _, runBenchmark_eq 0 sampleWorld,
    claim_C6 0 sampleWorld _ _ (runBenchmark_eq 0 sampleWorld)⟩

/-- C7: when the clock is monotone (as `performance.now()` is), all four
timing fields of every run result are nonnegative. -/
theorem claim_C7 (size : Nat) (w : World) (r : BenchmarkResult) (w' : World)
    (hmono : Monotone w.oracle) (h : runBenchmark size w = some (r, w')) :
    0 ≤ r.asyncWriteTime ∧ 0 ≤ r.asyncReadTime ∧
    0 ≤ r.mmkvWriteTime ∧ 0 ≤ r.mmkvReadTime := by
  rw [runBenchmark_eq] at h
  simp only [Option.some.injEq, Prod.mk.injEq] at h
  obtain ⟨hr, -⟩ := h
  subst hr
  exact ⟨sub_nonneg.mpr (hmono (by omega)), sub_nonneg.mpr (hmono (by omega)),
    sub_nonneg.mpr (hmono (by omega)), sub_nonneg.mpr (hmono (by omega))⟩

theorem claim_C7_witness :
    ∃ r w', runBenchmark 0 sampleWorld = some (r, w') ∧
      0 ≤ r.asyncWriteTime ∧ 0 ≤ r.asyncReadTime ∧
      0 ≤ r.mmkvWriteTime ∧ 0 ≤ r.mmkvReadTime :=
  ⟨_, _, runBenchmark_eq 0 sampleWorld,
    claim_C7 0 sampleWorld _ _ (fun _ _ hab => Nat.cast_le.mpr hab)
      (runBenchmark_eq 0 sampleWorld)⟩

/-- C8: a run invocation mutates no global state other than appending the
result to the caller-owned history: `handleRunTests` appends exactly one
record to the history, the clock oracle is unchanged, and each backend store
is unchanged at every key other than the single fixed key that backend's
adapter writes. -/
theorem claim_C8 (size : Nat) (results : List BenchmarkResult) (w : World)
    (rs' : List BenchmarkResult) (w' : World)
    (h : handleRunTests size results w = some (rs', w')) :
    (∃ r, rs' = results ++ [r]) ∧
    w'.oracle = w.oracle ∧
    (∀ k, k ≠ "asyncKey" → w'.asyncStore k = w.asyncStore k) ∧
    (∀ k, k ≠ "mmkvKey" → w'.mmkvStore k = w.mmkvStore k) := by
  rw [handleRunTests, runBenchmark_eq] at h
  simp only [Option.map_some', Option.some.injEq, Prod.mk.injEq] at h
  obtain ⟨hrs, hw⟩ := h
  subst hrs
  subst hw
  refine ⟨⟨_, rfl⟩, rfl, fun k hk => ?_, fun k hk => ?_⟩
  · exact if_neg hk
  · exact if_neg hk

theorem claim_C8_witness :
    ∃ rs' w', handleRunTests 0 [] sampleWorld = some (rs', w') ∧
      (∃ r, rs' = [] ++ [r]) ∧
      w'.oracle = sampleWorld.oracle ∧
      w'.asyncStore "otherKey" = sampleWorld.asyncStore "otherKey" ∧
      w'.mmkvStore "otherKey" = sampleWorld.mmkvStore "otherKey" := by
  have h := congrArg
    (Option.map fun p => (([] : List BenchmarkResult) ++ [p.1], p.2))
    (runBenchmark_eq 0 sampleWorld)
  have hc := claim_C8 0 [] sampleWorld _ _ h
  exact ⟨_, _, h, hc.1, hc.2.1, hc.2.2.1 "otherKey" (by decide),
    hc.2.2.2 "otherKey" (by decide)⟩

/-- C9: in the variant source's percentage computation, the divisor is the
smaller of the two timings: the write (resp. read) percentage difference
equals the write (resp. read) absolute difference divided by the minimum of
the two write (resp. read) timings, times 100. -/
theorem claim_C9 (size : Nat) (w : World) (r : Variant.BenchmarkResult) (w' : World)
    (h : Variant.runBenchmark size w = some (r, w')) :
    r.writePercentageDifference
      = r.writeDifference / min r.asyncWriteTime r.mmkvWriteTime * 100 ∧
    r.readPercentageDifference
      = r.readDifference / min r.asyncReadTime r.mmkvReadTime * 100 := by
  rw [variantRunBenchmark_eq] at h
  simp only [Option.some.injEq, Prod.mk.injEq] at h
  obtain ⟨hr, -⟩ := h
  subst hr
  exact ⟨percentage_min _ _ _, percentage_min _ _ _⟩

theorem claim_C9_witness :
    ∃ r w', Variant.runBenchmark 0 sampleWorld = some (r, w') ∧
      r.writePercentageDifference
        = r.writeDifference / min r.asyncWriteTime r.mmkvWriteTime * 100 ∧
      r.readPercentageDifference
        = r.readDifference / min r.asyncReadTime r.mmkvReadTime * 100 :=
  ⟨_, _, variantRunBenchmark_eq 0 sampleWorld,
    claim_C9 0 sampleWorld _ _ (variantRunBenchmark_eq 0 sampleWorld)⟩

/-- C10: every run result's `size` field equals the size argument, and each
backend's average field equals the arithmetic mean of that backend's write
and read timings. -/
theorem claim_C10 (size : Nat) (w : World) (r : BenchmarkResult) (w' : World)
    (h : runBenchmark size w = some (r, w')) :
    r.size = size ∧
    r.asyncAvg = (r.asyncWriteTime + r.asyncReadTime) / 2 ∧
    r.mmkvAvg = (r.mmkvWriteTime + r.mmkvReadTime) / 2 := by
  rw [runBenchmark_eq] at h
  simp only [Option.some.injEq, Prod.mk.injEq] at h
  obtain ⟨hr, -⟩ := h
  subst hr
  exact ⟨rfl, rfl, rfl⟩

theorem claim_C10_witness :
    ∃ r w', runBenchmark 0 sampleWorld = some (r, w') ∧
      r.size = 0 ∧
      r.asyncAvg = (r.asyncWriteTime + r.asyncReadTime) / 2 ∧
      r.mmkvAvg = (r.mmkvWriteTime + r.mmkvReadTime) / 2 :=
  ⟨_, _, runBenchmark_eq 0 sampleWorld,
    claim_C10 0 sampleWorld _ _ (runBenchmark_eq 0 sampleWorld)⟩
